import Mathlib

set_option maxRecDepth 8192

/-!
Verification of the basm-rs bootstrap layer (src/codegen.rs, src/main.rs).

The source consists of naked assembly entry stubs, a stack-probe shim
(__chkstk), a bootstrap routine, fatal handlers, and (outside this tree)
ELF/PE relocators.  Each definition below is a shallow embedding of one
of those routines: machine words are Nat with explicit reduction modulo
2^64 (or 2^32 for i686), memory is a function from addresses to words,
and side effects (calls, system calls, patches) are recorded as events.
-/

/-- Addition of 64-bit machine words (wraps modulo 2^64). -/
def add64 (a b : Nat) : Nat := (a + b) % 2 ^ 64

/-- Subtraction of 64-bit machine words (wraps modulo 2^64). -/
def sub64 (a b : Nat) : Nat := (a + (2 ^ 64 - b % 2 ^ 64)) % 2 ^ 64

/-- Addition of 32-bit machine words (wraps modulo 2^32). -/
def add32 (a b : Nat) : Nat := (a + b) % 2 ^ 32

/-- Subtraction of 32-bit machine words (wraps modulo 2^32). -/
def sub32 (a b : Nat) : Nat := (a + (2 ^ 32 - b % 2 ^ 32)) % 2 ^ 32

/-- Store value `v` at address `a` of memory `m`. -/
def writeMem (m : Nat → Nat) (a v : Nat) : Nat → Nat :=
  fun x => if x = a then v else m x

/-!
## Entry stubs: stack-pointer values at each call instruction

The three `_start` stubs of codegen.rs execute a fixed straight-line
instruction sequence.  For the stack-alignment property the relevant
state is the stack pointer; each definition below returns the value the
stack pointer holds immediately before each `call` instruction the stub
executes, in program order.  A `call`/`ret` pair is stack-balanced (the
callee returns with the pointer it was given), which the traces use for
the calls that return.
-/

/-- Stack-pointer values at the call instructions of the x86-64 System V
entry stub (codegen.rs lines 50-64): after `and rsp, 0xFFFFFFFFFFFFFFF0`
it performs `call relocate` and `call _start_rust` with no stack motion
in between. -/
def amd64SysvCallRsps (rsp0 : Nat) : List Nat :=
  let rsp1 := rsp0 &&& 0xFFFFFFFFFFFFFFF0
  [rsp1, rsp1]

/-- Stack-pointer values at the call instructions of the x86-64 Windows
entry stub (codegen.rs lines 69-107): `and rsp, 0xFFFFFFFFFFFFFFE0`,
then `sub rsp, 32` (shadow space), then `call relocate` and
`call _start_rust`; the flag-test and patch instructions between the two
calls do not move the stack pointer. -/
def amd64PeCallRsps (rsp0 : Nat) : List Nat :=
  let rsp1 := rsp0 &&& 0xFFFFFFFFFFFFFFE0
  let rsp2 := sub64 rsp1 32
  [rsp2, rsp2]

/-- Stack-pointer values at the call instructions of the i686 System V
entry stub (codegen.rs lines 136-164): after `and esp, 0xFFFFFFF0`,
the stub runs `call 1f` / `pop ecx` (net zero stack motion), two calls
to the leaf offset routines, then `sub esp, 8`, `push eax`, `push ecx`,
`call relocate`, `add esp, 4`, `push edi`, `call _start_rust`. -/
def i686CallEsps (esp0 : Nat) : List Nat :=
  let esp1 := esp0 &&& 0xFFFFFFF0
  let esp2 := sub32 (sub32 (sub32 esp1 8) 4) 4
  let esp3 := sub32 (add32 esp2 4) 4
  [esp1, esp1, esp1, esp2, esp3]

/-!
## Standalone Linux x86-64 entry (main.rs `_start`)
-/

/-- Observable actions of the standalone Linux entry point. -/
inductive LinuxEv
  | callMain
  | sysExit (num status : Nat)
  deriving DecidableEq, Repr

/-- Initial machine state handed to the standalone entry by the kernel:
the stack pointer plus the ABI-standard initial stack contents
(argc, argv, envp). -/
structure LinuxStartInput where
  rsp : Nat
  argc : Nat
  argv : Nat
  envp : Nat
  deriving DecidableEq, Repr

/-- The standalone Linux x86-64 entry point (main.rs lines 21-31):
`and rsp, 0xFFFFFFFFFFFFFFF0`, then `solution::main()`, then the raw
`syscall` instruction with rax = 231 and rdi = 0.  Returns the realigned
stack pointer and the event trace. -/
def linuxStart (inp : LinuxStartInput) : Nat × List LinuxEv :=
  (inp.rsp &&& 0xFFFFFFFFFFFFFFF0, [LinuxEv.callMain, LinuxEv.sysExit 231 0])

/-!
## Bootstrap (`_start_rust`, codegen.rs lines 166-170)
-/

/-- Observable actions of the bootstrap routine. -/
inductive BootEv
  | platformInit (serviceFunctions : Nat)
  | appMain
  | exitCall (status : Nat)
  deriving DecidableEq, Repr

/-- The bootstrap routine `_start_rust(service_functions)`:
`platform::init(service_functions); solution::main();
platform::services::exit(0)`.  The final event is the termination
service, which never returns, so the trace is the routine's complete
behaviour. -/
def startRust (serviceFunctions : Nat) : List BootEv :=
  [BootEv.platformInit serviceFunctions, BootEv.appMain, BootEv.exitCall 0]

/-!
## Fatal handlers (codegen.rs lines 209-233, main.rs lines 33-43)
-/

/-- Actions a fatal hook could perform.  `trap` is a guaranteed-fault
instruction (such as an abort or ud2); `hintUnreachable` is
`core::hint::unreachable_unchecked()`, a compiler hint that the point
is never reached: it emits no instruction at all and executing it is
undefined behaviour, not a trap. -/
inductive FatalAct
  | unwind
  | runDestructor
  | cleanup
  | trap
  | hintUnreachable
  deriving DecidableEq, Repr

/-- Body of the `#[panic_handler]` hook: a single
`unsafe { core::hint::unreachable_unchecked() }`. -/
def panicHandlerActs : List FatalAct := [FatalAct.hintUnreachable]

/-- Body of the `#[alloc_error_handler]` hook: a single
`unsafe { core::hint::unreachable_unchecked() }`. -/
def allocFailActs : List FatalAct := [FatalAct.hintUnreachable]

/-- Body of `_Unwind_Resume`: a single
`unsafe { core::hint::unreachable_unchecked() }`. -/
def unwindResumeActs : List FatalAct := [FatalAct.hintUnreachable]

/-- Body of `rust_eh_personality`: a single
`unsafe { core::hint::unreachable_unchecked() }`. -/
def ehPersonalityActs : List FatalAct := [FatalAct.hintUnreachable]

/-!
## The x86-64 Windows entry stub (codegen.rs lines 69-107)

Loader mode: rcx holds the ServiceFunctionTable address.  `mem` is the
qword-load view of memory at entry and `chkstkByte` the first code byte
of `__chkstk`.  The stub's observable behaviour is the sequence of its
outgoing transfers plus its one possible code patch.
-/

/-- Observable actions of the x86-64 Windows entry stub: the call to
`loader::amd64_pe::relocate` with its five register arguments
(rdi, rsi, rdx, rcx, r8), the one-byte patch of `__chkstk`, and the
call to `_start_rust` with its argument in rcx. -/
inductive Win64Ev
  | callRelocate (rdi rsi rdx rcx r8 : Nat)
  | patchChkstk (byte : Nat)
  | callStartRust (rcx : Nat)
  deriving DecidableEq, Repr

/-- Machine state at entry of the x86-64 Windows stub. -/
structure Win64Input where
  rsp : Nat
  svc : Nat
  mem : Nat → Nat
  chkstkByte : Nat

/-- PLATFORM_DATA address: `mov rax, QWORD PTR [rbx + 72]` with
rbx = the ServiceFunctionTable address. -/
def winPd (inp : Win64Input) : Nat := inp.mem (add64 inp.svc 72)

/-- ImageBase: `mov rdi, QWORD PTR [rax + 24]`. -/
def winImageBase (inp : Win64Input) : Nat := inp.mem (add64 (winPd inp) 24)

/-- Base address of the current program in memory:
`mov rsi, QWORD PTR [rbx + 0]` — read from the ServiceFunctionTable
itself, not from PLATFORM_DATA. -/
def winBaseCarrier (inp : Win64Input) : Nat := inp.mem (add64 inp.svc 0)

/-- Offset of the relocation table: `mov rdx, QWORD PTR [rax + 32]`. -/
def winRelocOff (inp : Win64Input) : Nat := inp.mem (add64 (winPd inp) 32)

/-- Size of the relocation table: `mov rcx, QWORD PTR [rax + 40]`. -/
def winRelocSize (inp : Win64Input) : Nat := inp.mem (add64 (winPd inp) 40)

/-- Leading unused bytes: `mov r8, QWORD PTR [rax + 16]`. -/
def winLeading (inp : Win64Input) : Nat := inp.mem (add64 (winPd inp) 16)

/-- Flags word: `mov rdx, QWORD PTR [rax + 8]` (after reloading
rax = [rbx + 72]). -/
def winFlags (inp : Win64Input) : Nat := inp.mem (add64 (winPd inp) 8)

/-- The relocate call made by the stub: after the loads above it runs
`sub rsi, r8` and `add rdx, r8`, then `call relocate` with arguments
(rdi, rsi, rdx, rcx, r8). -/
def win64RelocEvent (inp : Win64Input) : Win64Ev :=
  Win64Ev.callRelocate (winImageBase inp)
    (sub64 (winBaseCarrier inp) (winLeading inp))
    (add64 (winRelocOff inp) (winLeading inp))
    (winRelocSize inp) (winLeading inp)

/-- The x86-64 Windows entry stub after its stack setup: the relocate
call, then `mov rdx, [rax + 8]`, `btc rdx, 0`, `jnc 1f` — the carry
flag receives bit 0 of the flags word, so the patch block
(`lea rcx, [rip + __chkstk]`, `mov BYTE PTR [rcx], 0xc3`) runs exactly
when bit 0 is set — then `mov rcx, rbx`, `call _start_rust`.  Returns
the event trace and the final first byte of `__chkstk`. -/
def win64Start (inp : Win64Input) : List Win64Ev × Nat :=
  if (winFlags inp).testBit 0 then
    ([win64RelocEvent inp, Win64Ev.patchChkstk 0xc3,
      Win64Ev.callStartRust inp.svc], 0xc3)
  else
    ([win64RelocEvent inp, Win64Ev.callStartRust inp.svc], inp.chkstkByte)

/-- The rsi argument of the leading `callRelocate` event of a trace, if
any. -/
def relocBaseArg : List Win64Ev → Option Nat
  | Win64Ev.callRelocate _ rsi _ _ _ :: _ => some rsi
  | _ => none

/-- Concrete input refuting the claim that the relocation-table base
carrier is a PlatformDescriptor field at offset +0: the table sits at
address 1000, [1000 + 72] = 2000 is the PlatformDescriptor, the word at
table+0 is 111 while the word at descriptor+0 is 222. -/
def c6Input : Win64Input :=
  ⟨2 ^ 20, 1000,
   fun a => if a = 1072 then 2000 else if a = 1000 then 111
            else if a = 2000 then 222 else 0,
   0x55⟩

/-- Concrete loader-mode input whose PlatformDescriptor flags word
(at [1000 + 72] + 8 = 2008) has bit 0 set. -/
def c2Input : Win64Input :=
  ⟨2 ^ 20, 1000,
   fun a => if a = 1072 then 2000 else if a = 2008 then 1 else 0,
   0x55⟩

/-!
## The stack probe shim `__chkstk` (codegen.rs lines 172-197)
-/

/-- Machine state relevant to `__chkstk`: the three registers it uses
and memory. -/
structure ChkstkState where
  rax : Nat
  rcx : Nat
  rsp : Nat
  mem : Nat → Nat

/-- The probe loop of `__chkstk` (label 2):
`sub rcx, 4096; test [rcx], rcx; sub rax, 4096; cmp rax, 4096; ja 2b`.
Returns the touched addresses in order together with the final rax and
rcx.  The first argument is fuel bounding the iteration count; each
iteration removes 4096 from rax, so any fuel at least rax / 4096 is
never exhausted (the callers below pass rax itself). -/
def chkstkLoopF : Nat → Nat → Nat → List Nat × Nat × Nat
  | 0, rax, rcx => ([], rax, rcx)
  | fuel + 1, rax, rcx =>
    let rcx' := sub64 rcx 4096
    let rax' := rax - 4096
    if 4096 < rax' then
      let r := chkstkLoopF fuel rax' rcx'
      (rcx' :: r.1, r.2)
    else
      ([rcx'], rax', rcx')

/-- The addresses `rcx - 4096, rcx - 2*4096, ..., rcx - k*4096`, in
order: the touch sequence of `k` probe-loop iterations started at
`rcx`. -/
def strideTouches : Nat → Nat → List Nat
  | _, 0 => []
  | rcx, k + 1 => sub64 rcx 4096 :: strideTouches (sub64 rcx 4096) k

/-- Full execution of `__chkstk` from entry (rsp points at the return
address) to its `ret`: `push rcx`, `push rax`, `cmp rax, 4096`,
`lea rcx, [rsp + 24]`, the probe loop unless rax < 4096 (`jb 1f`), then
`sub rcx, rax`, `test [rcx], rcx`, `pop rax`, `pop rcx`.  Returns the
state delivered to `ret` (the test instructions only read memory and
set flags) and the list of touched addresses. -/
def chkstkExec (s : ChkstkState) : ChkstkState × List Nat :=
  let rsp1 := sub64 s.rsp 8
  let mem1 := writeMem s.mem rsp1 s.rcx
  let rsp2 := sub64 rsp1 8
  let mem2 := writeMem mem1 rsp2 s.rax
  let rcx0 := add64 rsp2 24
  let lr := if s.rax < 4096 then ([], s.rax, rcx0)
            else chkstkLoopF s.rax s.rax rcx0
  let finalTouch := sub64 lr.2.2 lr.2.1
  (⟨mem2 rsp2, mem2 rsp1, add64 (add64 rsp2 8) 8, mem2⟩,
   lr.1 ++ [finalTouch])

/-!
## The i686 entry stub's base derivation (codegen.rs lines 109-164)

The two leaf routines `_get_start_offset` and `_get_dynamic_section_offset`
are placed in section `.data` (writable memory) and return the
link-time-known absolute addresses of `_start` and of `_DYNAMIC`
(`lea eax, [_start]; ret` and `lea eax, [_DYNAMIC]; ret`), which for an
image linked at base 0 are the offsets of those symbols from the image
base.  `S` and `D` denote those two link-time offsets below; `B` is the
in-memory image base, so the loaded `_start` sits at `B + S`.
-/

/-- Section attribute of `_get_start_offset` (`#[link_section = ".data"]`). -/
def getStartOffsetSection : String := ".data"

/-- Section attribute of `_get_dynamic_section_offset`
(`#[link_section = ".data"]`). -/
def getDynamicSectionOffsetSection : String := ".data"

/-- Return value of the leaf routine `_get_start_offset`:
the link-time offset of `_start`. -/
def getStartOffsetRet (S : Nat) : Nat := S

/-- Return value of the leaf routine `_get_dynamic_section_offset`:
the link-time offset of `_DYNAMIC`. -/
def getDynamicSectionOffsetRet (D : Nat) : Nat := D

/-- The i686 stub's image-base derivation: `call 1f; 1: pop ecx` leaves
in ecx the runtime address of the `pop` instruction, which is the
runtime `_start` plus 0xD (the byte length of the instructions before
it); then `call _get_start_offset` puts the link-time `_start` offset
in eax, and `sub ecx, eax; sub ecx, 0xD` yields the image base. -/
def i686DeriveBase (B S : Nat) : Nat :=
  let ecx := add32 (add32 B S) 0xD
  let eax := getStartOffsetRet S
  sub32 (sub32 ecx eax) 0xD

/-- The i686 stub's `_DYNAMIC` derivation:
`call _get_dynamic_section_offset` puts the link-time `_DYNAMIC` offset
in eax, and `add eax, ecx` adds the derived image base. -/
def i686DeriveDynamic (B S D : Nat) : Nat :=
  add32 (getDynamicSectionOffsetRet D) (i686DeriveBase B S)

/-!
## Relocators

The relocation routines `loader::amd64_elf::relocate`,
`loader::amd64_pe::relocate` and `loader::i686_elf::relocate` live in
the external `basm` crate, not under this tree; they are modelled from
the spec.
-/

/-- One ELF relocation entry: target offset and explicit addend (only
the absolute-address kind is ever emitted). -/
structure ElfRelocEntry where
  offset : Nat
  addend : Nat
  deriving DecidableEq, Repr

/-- Modelled from the spec: `loader::amd64_elf::relocate` (code not
under src/).  "iterate entries in table order; the ELF variant applies
`*target = base + addend`"; the target of an entry with offset `o` is
the image location at `base + o`. -/
def elfRelocate (base : Nat) (entries : List ElfRelocEntry)
    (mem : Nat → Nat) : Nat → Nat :=
  entries.foldl (fun m e => writeMem m (add64 base e.offset) (add64 base e.addend)) mem

/-- Modelled from the spec: `loader::amd64_pe::relocate` (code not
under src/).  "the PE variant applies `*target += delta` for 64-bit
pointer entries only"; `offsets` lists the addresses of the 64-bit
pointer entries in table order. -/
def peRelocate (delta : Nat) (offsets : List Nat)
    (mem : Nat → Nat) : Nat → Nat :=
  offsets.foldl (fun m o => writeMem m o (add64 (m o) delta)) mem

/-- Concrete single-entry ELF image refuting mandatory corruption under
double relocation: link-time memory holding the addend 555 at offset 0
(an image linked at base 0 stores the addend as the location's
link-time value). -/
def c8LinkMem : Nat → Nat := fun _ => 555

/-- The relocation table of the concrete ELF image: one absolute-address
entry at offset 0 with addend 555. -/
def c8Entries : List ElfRelocEntry := [⟨0, 555⟩]

/-- A concrete `__chkstk` entry state with a 10000-byte frame request. -/
def c3State : ChkstkState := ⟨10000, 3, 2 ^ 20, fun _ => 0⟩

/-- A concrete `__chkstk` entry state with a 9000-byte frame request. -/
def c10State : ChkstkState := ⟨9000, 5, 2 ^ 20, fun _ => 7⟩

/-!
## Helper lemmas
-/

/-- An AND with a mask whose low `k` bits are clear clears the low `k`
bits. -/
theorem land_mod_two_pow_eq_zero (x m k : Nat) (hm : m % 2 ^ k = 0) :
    (x &&& m) % 2 ^ k = 0 := by
  apply Nat.eq_of_testBit_eq
  intro i
  rw [Nat.zero_testBit, Nat.testBit_mod_two_pow]
  rcases Nat.lt_or_ge i k with h | h
  · have hb : m.testBit i = false := by
      have h2 := Nat.testBit_mod_two_pow m k i
      rw [hm, Nat.zero_testBit] at h2
      simpa [h] using h2.symm
    simp [Nat.testBit_land, hb]
  · simp [Nat.not_lt.mpr (Nat.not_lt.mp (fun hc => absurd h (Nat.not_le.mpr hc)))]

/-- Composing two 64-bit subtractions subtracts the sum. -/
theorem sub64_sub64 (c a b : Nat) : sub64 (sub64 c a) b = sub64 c (a + b) := by
  unfold sub64
  omega

/-!
## Claim theorems
-/

/-- C1: for every entry stub (x86-64 System V, x86-64 Microsoft, i686
System V), immediately before every call instruction the stub executes,
the stack pointer's low 4 bits are zero under the System V ABI and its
low 5 bits are zero under the Microsoft x64 ABI. -/
theorem c1_entry_stub_stack_alignment (rsp0 esp0 r : Nat) :
    (r ∈ amd64SysvCallRsps rsp0 → r % 16 = 0) ∧
    (r ∈ amd64PeCallRsps rsp0 → r % 32 = 0) ∧
    (r ∈ i686CallEsps esp0 → r % 16 = 0) := by
  refine ⟨fun hr => ?_, fun hr => ?_, fun hr => ?_⟩
  · simp only [amd64SysvCallRsps, List.mem_cons, List.not_mem_nil, or_false] at hr
    have h1 : (rsp0 &&& 0xFFFFFFFFFFFFFFF0) % 2 ^ 4 = 0 :=
      land_mod_two_pow_eq_zero rsp0 _ 4 (by decide)
    rcases hr with h | h <;> simpa [h] using h1
  · simp only [amd64PeCallRsps, List.mem_cons, List.not_mem_nil, or_false] at hr
    have h1 : (rsp0 &&& 0xFFFFFFFFFFFFFFE0) % 2 ^ 5 = 0 :=
      land_mod_two_pow_eq_zero rsp0 _ 5 (by decide)
    have h2 : sub64 (rsp0 &&& 0xFFFFFFFFFFFFFFE0) 32 % 32 = 0 := by
      unfold sub64
      have h1' : (rsp0 &&& 0xFFFFFFFFFFFFFFE0) % 32 = 0 := by simpa using h1
      omega
    rcases hr with h | h <;> simpa [h] using h2
  · simp only [i686CallEsps, List.mem_cons, List.not_mem_nil, or_false] at hr
    have h1 : (esp0 &&& 0xFFFFFFF0) % 2 ^ 4 = 0 :=
      land_mod_two_pow_eq_zero esp0 _ 4 (by decide)
    have h1' : (esp0 &&& 0xFFFFFFF0) % 16 = 0 := by simpa using h1
    have h2 : sub32 (sub32 (sub32 (esp0 &&& 0xFFFFFFF0) 8) 4) 4 % 16 = 0 := by
      unfold sub32
      omega
    have h3 : sub32 (add32 (sub32 (sub32 (sub32 (esp0 &&& 0xFFFFFFF0) 8) 4) 4) 4) 4 % 16 = 0 := by
      unfold sub32 add32
      omega
    rcases hr with h | h | h | h | h <;> simp [h]
    · exact h1'
    · exact h1'
    · exact h1'
    · exact h2
    · exact h3

/-- C1 witness: the System V stub entered with rsp = 0 performs both its
calls with an aligned stack pointer. -/
theorem c1_entry_stub_stack_alignment_witness :
    (0 ∈ amd64SysvCallRsps 0) ∧ 0 % 16 = 0 :=
  ⟨by decide, (c1_entry_stub_stack_alignment 0 0 0).1 (by decide)⟩

/-- C4: the standalone x86-64 Linux entry point realigns the stack while
ignoring argc/argv/envp, invokes the application logic, then issues the
raw process-exit system call numbered 231 with status 0, and no exit
event with a non-zero status occurs. -/
theorem c4_standalone_linux_entry (inp : LinuxStartInput) :
    (linuxStart inp).1 = (inp.rsp &&& 0xFFFFFFFFFFFFFFF0) ∧
    (linuxStart inp).1 % 16 = 0 ∧
    (linuxStart inp).2 = [LinuxEv.callMain, LinuxEv.sysExit 231 0] ∧
    (∀ inp2 : LinuxStartInput, inp2.rsp = inp.rsp → linuxStart inp2 = linuxStart inp) ∧
    (∀ n st, LinuxEv.sysExit n st ∈ (linuxStart inp).2 → n = 231 ∧ st = 0) := by
  refine ⟨rfl, ?_, rfl, fun inp2 h => ?_, fun n st h => ?_⟩
  · have h1 : (inp.rsp &&& 0xFFFFFFFFFFFFFFF0) % 2 ^ 4 = 0 :=
      land_mod_two_pow_eq_zero inp.rsp _ 4 (by decide)
    simpa [linuxStart] using h1
  · simp [linuxStart, h]
  · simpa [linuxStart] using h

/-- C4 witness: two kernel-provided states differing only in
argc/argv/envp produce identical behaviour. -/
theorem c4_standalone_linux_entry_witness :
    linuxStart ⟨77, 5, 6, 9⟩ = linuxStart ⟨77, 1, 2, 3⟩ :=
  (c4_standalone_linux_entry ⟨77, 1, 2, 3⟩).2.2.2.1 ⟨77, 5, 6, 9⟩ rfl

/-- C5: the bootstrap routine, called with a service-table address,
first initializes the platform/service layer from that address, then
invokes the application entry, then invokes the termination service
with status 0; the termination call is the final event and never
returns, so the routine never returns. -/
theorem c5_bootstrap_sequence (svc : Nat) :
    startRust svc = [BootEv.platformInit svc, BootEv.appMain, BootEv.exitCall 0] ∧
    (startRust svc).getLast? = some (BootEv.exitCall 0) :=
  ⟨rfl, rfl⟩

/-- C9 counterexample: the panic handler's body is a single
`core::hint::unreachable_unchecked()` call; it contains no trapping
instruction, so reaching it does not make the process reach an
unrecoverable trap — executing it is undefined behaviour instead. -/
theorem c9_counterexample : FatalAct.trap ∉ panicHandlerActs := by decide

/-- C9 amended: every fatal hook (panic handler, allocation-failure
handler, forced-unwind hook, exception-personality hook) performs no
unwinding, no destructor execution and no cleanup; each consists solely
of the compiler hint `unreachable_unchecked`, which emits no trap —
reaching a hook is declared impossible and is undefined behaviour. -/
theorem c9_fatal_handlers_amended :
    panicHandlerActs = [FatalAct.hintUnreachable] ∧
    allocFailActs = [FatalAct.hintUnreachable] ∧
    unwindResumeActs = [FatalAct.hintUnreachable] ∧
    ehPersonalityActs = [FatalAct.hintUnreachable] ∧
    FatalAct.unwind ∉ panicHandlerActs ∧
    FatalAct.runDestructor ∉ panicHandlerActs ∧
    FatalAct.cleanup ∉ panicHandlerActs ∧
    FatalAct.unwind ∉ allocFailActs ∧
    FatalAct.runDestructor ∉ allocFailActs ∧
    FatalAct.cleanup ∉ allocFailActs ∧
    FatalAct.unwind ∉ unwindResumeActs ∧
    FatalAct.runDestructor ∉ unwindResumeActs ∧
    FatalAct.cleanup ∉ unwindResumeActs ∧
    FatalAct.unwind ∉ ehPersonalityActs ∧
    FatalAct.runDestructor ∉ ehPersonalityActs ∧
    FatalAct.cleanup ∉ ehPersonalityActs := by decide

/-- C2: in the x86-64 Windows entry stub, if bit 0 of the flags word at
offset +8 of the PlatformDescriptor is set, the first byte of
`__chkstk` is overwritten with 0xC3 before the call that transfers
control to the bootstrap routine, and the patch event occurs exactly
once; if bit 0 is clear, the byte is left unchanged and no patch event
occurs. -/
theorem c2_chkstk_patch (inp : Win64Input) :
    ((winFlags inp).testBit 0 = true →
      win64Start inp = ([win64RelocEvent inp, Win64Ev.patchChkstk 0xc3,
        Win64Ev.callStartRust inp.svc], 0xc3)) ∧
    ((winFlags inp).testBit 0 = false →
      win64Start inp = ([win64RelocEvent inp, Win64Ev.callStartRust inp.svc],
        inp.chkstkByte)) := by
  constructor <;> intro h <;> simp [win64Start, h]

/-- C2 witness: on a concrete input with the flag bit set, the patch is
applied once, strictly before the bootstrap call, and the byte becomes
0xC3. -/
theorem c2_chkstk_patch_witness :
    win64Start c2Input = ([win64RelocEvent c2Input, Win64Ev.patchChkstk 0xc3,
      Win64Ev.callStartRust c2Input.svc], 0xc3) :=
  (c2_chkstk_patch c2Input).1 (by decide)

/-- C6 counterexample: on a concrete loader input the relocation-table
base carrier the stub passes to the relocator is the word at offset +0
of the ServiceFunctionTable (111), not the word at offset +0 of the
PlatformDescriptor (222), so the carrier is not a PlatformDescriptor
field at +0 as the claim states. -/
theorem c6_counterexample :
    relocBaseArg (win64Start c6Input).1 = some (c6Input.mem (add64 c6Input.svc 0)) ∧
    relocBaseArg (win64Start c6Input).1 ≠ some (c6Input.mem (add64 (winPd c6Input) 0)) := by
  decide

/-- C6 amended: in loader mode the stub reads the PlatformDescriptor
address from offset +72 of the ServiceFunctionTable; the
PlatformDescriptor fields it consumes sit at +8 flags, +16
leading-unused-byte count, +24 image base, +32 relocation-table offset
and +40 relocation-table size, while the relocation-table base carrier
is read from offset +0 of the ServiceFunctionTable itself; the
relocator is invoked with exactly these values (carrier and offset
adjusted by the leading-unused count). -/
theorem c6_descriptor_offsets_amended (inp : Win64Input) :
    winPd inp = inp.mem (add64 inp.svc 72) ∧
    winFlags inp = inp.mem (add64 (winPd inp) 8) ∧
    winLeading inp = inp.mem (add64 (winPd inp) 16) ∧
    winImageBase inp = inp.mem (add64 (winPd inp) 24) ∧
    winRelocOff inp = inp.mem (add64 (winPd inp) 32) ∧
    winRelocSize inp = inp.mem (add64 (winPd inp) 40) ∧
    winBaseCarrier inp = inp.mem (add64 inp.svc 0) ∧
    (win64Start inp).1.head? = some (Win64Ev.callRelocate (winImageBase inp)
      (sub64 (winBaseCarrier inp) (winLeading inp))
      (add64 (winRelocOff inp) (winLeading inp))
      (winRelocSize inp) (winLeading inp)) := by
  refine ⟨rfl, rfl, rfl, rfl, rfl, rfl, rfl, ?_⟩
  by_cases h : (winFlags inp).testBit 0 <;> simp [win64Start, h, win64RelocEvent]

/-- C7: the i686 entry stub derives the in-memory image base as a local
call's return address minus the link-time entry-point offset minus the
fixed byte distance 0xD from the entry point to the return address,
derives the `_DYNAMIC` address as the image base plus the second
link-time offset, and obtains both offsets from leaf routines placed in
the writable `.data` section. -/
theorem c7_i686_base_derivation (B S D : Nat)
    (hB : B < 2 ^ 32) (hS : S < 2 ^ 32) (_hD : D < 2 ^ 32) :
    i686DeriveBase B S = B ∧
    i686DeriveDynamic B S D = add32 B D ∧
    getStartOffsetSection = ".data" ∧
    getDynamicSectionOffsetSection = ".data" := by
  have h1 : i686DeriveBase B S = B := by
    simp only [i686DeriveBase, getStartOffsetRet, add32, sub32]
    omega
  refine ⟨h1, ?_, rfl, rfl⟩
  unfold i686DeriveDynamic getDynamicSectionOffsetRet
  rw [h1]
  unfold add32
  omega

/-- C7 witness: a concrete image base, entry offset and `_DYNAMIC`
offset are recovered exactly. -/
theorem c7_i686_base_derivation_witness :
    i686DeriveBase 65536 1234 = 65536 ∧
    i686DeriveDynamic 65536 1234 5678 = add32 65536 5678 ∧
    getStartOffsetSection = ".data" ∧
    getDynamicSectionOffsetSection = ".data" :=
  c7_i686_base_derivation 65536 1234 5678 (by norm_num) (by norm_num) (by norm_num)

/-- A location no entry targets is unchanged by the ELF relocator. -/
theorem elfRelocate_not_mem (base : Nat) (entries : List ElfRelocEntry)
    (mem : Nat → Nat) (loc : Nat)
    (h : ∀ e ∈ entries, add64 base e.offset ≠ loc) :
    elfRelocate base entries mem loc = mem loc := by
  induction entries generalizing mem with
  | nil => rfl
  | cons e es ih =>
    have he : add64 base e.offset ≠ loc := h e (by simp)
    have hes : ∀ e' ∈ es, add64 base e'.offset ≠ loc :=
      fun e' h' => h e' (by simp [h'])
    rw [show elfRelocate base (e :: es) mem =
        elfRelocate base es (writeMem mem (add64 base e.offset) (add64 base e.addend)) from rfl,
      ih _ hes]
    simp only [writeMem]
    rw [if_neg (Ne.symm he)]

/-- At a location some entry targets, the ELF relocator's result does
not depend on the starting memory. -/
theorem elfRelocate_indep (base : Nat) (entries : List ElfRelocEntry)
    (m1 m2 : Nat → Nat) (loc : Nat)
    (h : ∃ e ∈ entries, add64 base e.offset = loc) :
    elfRelocate base entries m1 loc = elfRelocate base entries m2 loc := by
  induction entries generalizing m1 m2 with
  | nil => simp at h
  | cons e es ih =>
    by_cases hes : ∃ e' ∈ es, add64 base e'.offset = loc
    · exact ih _ _ hes
    · obtain ⟨e0, he0, heq⟩ := h
      have hmem : e0 = e ∨ e0 ∈ es := by simpa using he0
      have heq' : add64 base e.offset = loc := by
        rcases hmem with h' | h'
        · rw [← h']; exact heq
        · exact absurd ⟨e0, h', heq⟩ hes
      have hnot : ∀ e' ∈ es, add64 base e'.offset ≠ loc :=
        fun e' h' hc => hes ⟨e', h', hc⟩
      rw [show elfRelocate base (e :: es) m1 =
          elfRelocate base es (writeMem m1 (add64 base e.offset) (add64 base e.addend)) from rfl,
        show elfRelocate base (e :: es) m2 =
          elfRelocate base es (writeMem m2 (add64 base e.offset) (add64 base e.addend)) from rfl,
        elfRelocate_not_mem _ _ _ _ hnot, elfRelocate_not_mem _ _ _ _ hnot]
      simp only [writeMem]
      rw [if_pos heq'.symm, if_pos heq'.symm]

/-- The ELF relocator is idempotent: a second application changes
nothing. -/
theorem elfRelocate_idem (base : Nat) (entries : List ElfRelocEntry)
    (mem : Nat → Nat) :
    elfRelocate base entries (elfRelocate base entries mem) =
      elfRelocate base entries mem := by
  funext loc
  by_cases h : ∃ e ∈ entries, add64 base e.offset = loc
  · exact elfRelocate_indep base entries _ mem loc h
  · have h' : ∀ e ∈ entries, add64 base e.offset ≠ loc :=
      fun e he hc => h ⟨e, he, hc⟩
    rw [elfRelocate_not_mem _ _ _ _ h']

/-- A location not listed is unchanged by the PE relocator. -/
theorem peRelocate_not_mem (delta : Nat) (offs : List Nat)
    (mem : Nat → Nat) (loc : Nat) (h : loc ∉ offs) :
    peRelocate delta offs mem loc = mem loc := by
  induction offs generalizing mem with
  | nil => rfl
  | cons o os ih =>
    have ho : loc ≠ o := fun hc => h (by simp [hc])
    have hos : loc ∉ os := fun hc => h (by simp [hc])
    rw [show peRelocate delta (o :: os) mem =
        peRelocate delta os (writeMem mem o (add64 (mem o) delta)) from rfl,
      ih _ hos]
    simp only [writeMem]
    rw [if_neg ho]

/-- A listed location (in a duplicate-free table) receives exactly one
increment by delta per PE relocation pass. -/
theorem peRelocate_mem (delta : Nat) (offs : List Nat)
    (mem : Nat → Nat) (loc : Nat) (hnd : offs.Nodup) (h : loc ∈ offs) :
    peRelocate delta offs mem loc = add64 (mem loc) delta := by
  induction offs generalizing mem with
  | nil => simp at h
  | cons o os ih =>
    rcases List.mem_cons.mp h with h' | h'
    · subst h'
      have hno : loc ∉ os := (List.nodup_cons.mp hnd).1
      rw [show peRelocate delta (loc :: os) mem =
          peRelocate delta os (writeMem mem loc (add64 (mem loc) delta)) from rfl,
        peRelocate_not_mem _ _ _ _ hno]
      simp [writeMem]
    · have hnd' := (List.nodup_cons.mp hnd).2
      have hne : loc ≠ o := by
        intro hc
        subst hc
        exact (List.nodup_cons.mp hnd).1 h'
      rw [show peRelocate delta (o :: os) mem =
          peRelocate delta os (writeMem mem o (add64 (mem o) delta)) from rfl,
        ih _ hnd' h']
      simp only [writeMem]
      rw [if_neg hne]

/-- C8 counterexample: a concrete single-entry ELF image on which a
second application of the per-entry relocation step stated by the spec
(`*target = base + addend`) leaves the single listed location (base +
0 = 4096) still equal to its link-time value (555) plus the load delta
(4096) — double application does not corrupt this image. -/
theorem c8_counterexample :
    c8Entries = [⟨0, 555⟩] ∧
    elfRelocate 4096 c8Entries (elfRelocate 4096 c8Entries c8LinkMem)
      (add64 4096 0) = add64 555 4096 := by
  decide

/-- C8 amended: double application of the ELF relocator never corrupts
the image (the per-entry step is an absolute store, hence idempotent);
double application of the PE relocator moves every listed location (in
a duplicate-free table) to link value plus twice the delta, which
corrupts it exactly when the delta is not a multiple of 2^64. -/
theorem c8_double_relocation_amended :
    (∀ base entries mem, elfRelocate base entries (elfRelocate base entries mem) =
      elfRelocate base entries mem) ∧
    (∀ delta offs (mem : Nat → Nat) loc, offs.Nodup → loc ∈ offs →
      peRelocate delta offs (peRelocate delta offs mem) loc =
        add64 (mem loc) (delta + delta) ∧
      (delta % 2 ^ 64 ≠ 0 →
        peRelocate delta offs (peRelocate delta offs mem) loc ≠
          add64 (mem loc) delta)) := by
  constructor
  · exact elfRelocate_idem
  · intro delta offs mem loc hnd hloc
    have h1 : peRelocate delta offs (peRelocate delta offs mem) loc =
        add64 (add64 (mem loc) delta) delta := by
      rw [peRelocate_mem _ _ _ _ hnd hloc, peRelocate_mem _ _ _ _ hnd hloc]
    have h2 : add64 (add64 (mem loc) delta) delta = add64 (mem loc) (delta + delta) := by
      unfold add64
      omega
    refine ⟨h1.trans h2, fun hne hc => ?_⟩
    rw [h1.trans h2] at hc
    unfold add64 at hc
    omega

/-- C8 witness: a concrete PE image with one listed location and delta
8 is corrupted by a second relocation pass. -/
theorem c8_double_relocation_amended_witness :
    peRelocate 8 [100] (peRelocate 8 [100] (fun _ => 0)) 100 ≠ add64 0 8 :=
  (c8_double_relocation_amended.2 8 [100] (fun _ => 0) 100
    (by decide) (by decide)).2 (by decide)

/-- Every stride offset `4096 * i` with `1 ≤ i ≤ k` is touched by `k`
probe-loop iterations. -/
theorem strideTouches_mem (k : Nat) : ∀ rcx i, 1 ≤ i → i ≤ k →
    sub64 rcx (4096 * i) ∈ strideTouches rcx k := by
  induction k with
  | zero => intro rcx i h1 h2; omega
  | succ k ih =>
    intro rcx i h1 h2
    show sub64 rcx (4096 * i) ∈ sub64 rcx 4096 :: strideTouches (sub64 rcx 4096) k
    rcases Nat.eq_or_lt_of_le h1 with h | h
    · have harg : 4096 * i = 4096 := by omega
      rw [harg]
      exact List.mem_cons_self _ _
    · have hmem := ih (sub64 rcx 4096) (i - 1) (by omega) (by omega)
      rw [sub64_sub64] at hmem
      have harg : 4096 + 4096 * (i - 1) = 4096 * i := by
        have : i - 1 + 1 = i := by omega
        calc 4096 + 4096 * (i - 1) = 4096 * (i - 1 + 1) := by ring
          _ = 4096 * i := by rw [this]
      rw [harg] at hmem
      exact List.mem_cons_of_mem _ hmem

/-- Characterization of the probe loop: started with request `rax` (at
least one stride) and pointer `rcx`, with fuel at least `rax / 4096`,
it performs some `k ≥ 1` iterations, touching the first `k` stride
addresses below `rcx`, stopping as soon as at most 4096 bytes remain
(`4096 * k ≤ rax ≤ 4096 * k + 4096`), and returns the remaining request
and the lowered pointer. -/
theorem chkstkLoopF_spec : ∀ fuel rax rcx, 4096 ≤ rax → rax ≤ 4096 * fuel →
    ∃ k, 1 ≤ k ∧ 4096 * k ≤ rax ∧ rax ≤ 4096 * k + 4096 ∧
      chkstkLoopF fuel rax rcx =
        (strideTouches rcx k, rax - 4096 * k, sub64 rcx (4096 * k)) := by
  intro fuel
  induction fuel with
  | zero => intro rax rcx h1 h2; omega
  | succ fuel ih =>
    intro rax rcx h1 h2
    by_cases hc : 4096 < rax - 4096
    · obtain ⟨k, hk1, hk2, hk3, heq⟩ :=
        ih (rax - 4096) (sub64 rcx 4096) (by omega) (by omega)
      refine ⟨k + 1, by omega, by omega, by omega, ?_⟩
      simp only [chkstkLoopF]
      rw [if_pos hc, heq]
      have e1 : rax - 4096 - 4096 * k = rax - 4096 * (k + 1) := by
        have : 4096 * (k + 1) = 4096 * k + 4096 := by ring
        omega
      have e2 : sub64 (sub64 rcx 4096) (4096 * k) = sub64 rcx (4096 * (k + 1)) := by
        rw [sub64_sub64]
        have : 4096 + 4096 * k = 4096 * (k + 1) := by ring
        rw [this]
      rw [e1, e2]
      rfl
    · refine ⟨1, by omega, by omega, by omega, ?_⟩
      simp only [chkstkLoopF]
      rw [if_neg hc]
      have e1 : (4096 : Nat) * 1 = 4096 := by norm_num
      rw [e1]
      rfl

/-- C3: given a requested frame size in rax, `__chkstk` walks backward
from the caller's stack pointer (entry rsp + 8) in 4096-byte strides,
touching one address per stride, until at most 4096 bytes of the
request remain, then touches the final (partial) stride at the full
requested offset; overall every 4096-byte stride below the requested
size is touched. -/
theorem c3_chkstk_strides (s : ChkstkState) :
    ∃ k, (chkstkExec s).2 =
        strideTouches (add64 s.rsp 8) k ++ [sub64 (add64 s.rsp 8) s.rax] ∧
      (s.rax < 4096 → k = 0) ∧
      (4096 ≤ s.rax → 1 ≤ k ∧ 4096 * k ≤ s.rax ∧ s.rax ≤ 4096 * k + 4096) ∧
      (∀ i, 1 ≤ i → 4096 * i ≤ s.rax →
        sub64 (add64 s.rsp 8) (4096 * i) ∈ (chkstkExec s).2) := by
  have hrcx : add64 (sub64 (sub64 s.rsp 8) 8) 24 = add64 s.rsp 8 := by
    simp only [add64, sub64]
    omega
  have hunf : (chkstkExec s).2 =
      (if s.rax < 4096 then ([], s.rax, add64 (sub64 (sub64 s.rsp 8) 8) 24)
       else chkstkLoopF s.rax s.rax (add64 (sub64 (sub64 s.rsp 8) 8) 24)).1 ++
      [sub64
        (if s.rax < 4096 then ([], s.rax, add64 (sub64 (sub64 s.rsp 8) 8) 24)
         else chkstkLoopF s.rax s.rax (add64 (sub64 (sub64 s.rsp 8) 8) 24)).2.2
        (if s.rax < 4096 then ([], s.rax, add64 (sub64 (sub64 s.rsp 8) 8) 24)
         else chkstkLoopF s.rax s.rax (add64 (sub64 (sub64 s.rsp 8) 8) 24)).2.1] := rfl
  by_cases h : s.rax < 4096
  · refine ⟨0, ?_, fun _ => rfl, fun hc => absurd hc (by omega), fun i hi1 hi2 => ?_⟩
    · rw [hunf, if_pos h, hrcx]
      rfl
    · omega
  · obtain ⟨k, hk1, hk2, hk3, heq⟩ :=
      chkstkLoopF_spec s.rax s.rax (add64 (sub64 (sub64 s.rsp 8) 8) 24)
        (by omega) (Nat.le_mul_of_pos_left s.rax (by norm_num))
    have htouch : (chkstkExec s).2 =
        strideTouches (add64 s.rsp 8) k ++ [sub64 (add64 s.rsp 8) s.rax] := by
      rw [hunf, if_neg h, heq]
      show strideTouches (add64 (sub64 (sub64 s.rsp 8) 8) 24) k ++
          [sub64 (sub64 (add64 (sub64 (sub64 s.rsp 8) 8) 24) (4096 * k))
            (s.rax - 4096 * k)] =
        strideTouches (add64 s.rsp 8) k ++ [sub64 (add64 s.rsp 8) s.rax]
      rw [hrcx, sub64_sub64 (add64 s.rsp 8) (4096 * k) (s.rax - 4096 * k)]
      have e : 4096 * k + (s.rax - 4096 * k) = s.rax := by omega
      rw [e]
    refine ⟨k, htouch, fun hc => absurd hc (by omega),
      fun _ => ⟨hk1, hk2, hk3⟩, fun i hi1 hi2 => ?_⟩
    rw [htouch]
    rcases Nat.lt_or_ge i (k + 1) with hik | hik
    · exact List.mem_append_left _ (strideTouches_mem k _ i hi1 (by omega))
    · have hie : 4096 * i = s.rax := by omega
      rw [hie]
      exact List.mem_append_right _ (by simp)

/-- C3 witness: the theorem instantiated at a concrete 10000-byte
request. -/
theorem c3_chkstk_strides_witness :
    ∃ k, (chkstkExec c3State).2 =
        strideTouches (add64 c3State.rsp 8) k ++
          [sub64 (add64 c3State.rsp 8) c3State.rax] ∧
      (c3State.rax < 4096 → k = 0) ∧
      (4096 ≤ c3State.rax →
        1 ≤ k ∧ 4096 * k ≤ c3State.rax ∧ c3State.rax ≤ 4096 * k + 4096) ∧
      (∀ i, 1 ≤ i → 4096 * i ≤ c3State.rax →
        sub64 (add64 c3State.rsp 8) (4096 * i) ∈ (chkstkExec c3State).2) :=
  c3_chkstk_strides c3State

/-- C10: `__chkstk` reaches its `ret` with rax and rcx holding exactly
the values they held at entry and with the stack pointer restored to
its entry value; memory at or above the entry stack pointer is
unchanged (only the two qwords pushed below it are written, and the
probe touches only read). -/
theorem c10_chkstk_frame_effect (s : ChkstkState)
    (h1 : 16 ≤ s.rsp) (h2 : s.rsp < 2 ^ 64) :
    (chkstkExec s).1.rax = s.rax ∧
    (chkstkExec s).1.rcx = s.rcx ∧
    (chkstkExec s).1.rsp = s.rsp ∧
    (∀ a, s.rsp ≤ a → (chkstkExec s).1.mem a = s.mem a) := by
  have hr1 : sub64 s.rsp 8 = s.rsp - 8 := by
    simp only [sub64]
    omega
  have hr2 : sub64 (s.rsp - 8) 8 = s.rsp - 16 := by
    simp only [sub64]
    omega
  simp only [chkstkExec, hr1, hr2]
  refine ⟨?_, ?_, ?_, fun a ha => ?_⟩
  · simp [writeMem]
  · simp only [writeMem]
    rw [if_neg (by omega)]
    simp
  · simp only [add64]
    omega
  · simp only [writeMem]
    rw [if_neg (by omega), if_neg (by omega)]

/-- C10 witness: the theorem instantiated at a concrete entry state. -/
theorem c10_chkstk_frame_effect_witness :
    (chkstkExec c10State).1.rax = c10State.rax ∧
    (chkstkExec c10State).1.rcx = c10State.rcx ∧
    (chkstkExec c10State).1.rsp = c10State.rsp ∧
    (∀ a, c10State.rsp ≤ a → (chkstkExec c10State).1.mem a = c10State.mem a) :=
  c10_chkstk_frame_effect c10State (by decide) (by decide)
